import Mathlib

/-!
Shallow embedding of the core logic of `src/app.py` (church-bulletin dashboard):
the Gemini credential-rotation retry loop (`call_gemini_with_retry`), its
initialization step (`init_gemini`), the historical-week matcher
(`get_this_week_history`), the recurring-event detector
(`find_recurring_events`) and the suggestion composer
(`suggest_next_month_ads`), together with theorems settling the frozen claims
about them.
-/

/-- A parsed calendar date, as stored in the 날짜 column after
`pd.to_datetime`. -/
structure SDate where
  year : Nat
  month : Nat
  day : Nat
deriving DecidableEq, Repr

/-- One bulletin row, restricted to the four columns the program reads
(날짜, 카테고리, 제목, 내용).  `date = none` models an unparseable date
(`pd.to_datetime(..., errors="coerce")` producing `NaT`); the three string
columns come from `worksheet.get_all_records()`, which fills blanks with the
empty string, never a missing value. -/
structure Entry where
  date : Option SDate
  category : String
  title : String
  body : String
deriving DecidableEq, Repr

/-! ### Calendar arithmetic (semantics of `pandas` `isocalendar`)

The source relies on `Timestamp.isocalendar()[1]` / `dt.isocalendar().week`,
the ISO-8601 week number.  We embed the standard proleptic-Gregorian
computation. -/

/-- Gregorian leap-year test. -/
def isLeap (y : Nat) : Bool :=
  (y % 4 == 0 && y % 100 != 0) || y % 400 == 0

/-- Number of days in month `m` of year `y`. -/
def daysInMonth (y m : Nat) : Nat :=
  if m == 2 then (if isLeap y then 29 else 28)
  else if m == 4 || m == 6 || m == 9 || m == 11 then 30
  else 31

/-- Ordinal day of the year (Jan 1 ↦ 1). -/
def dayOfYear (y m d : Nat) : Nat :=
  d + (((List.range' 1 (m - 1)).map (daysInMonth y)).sum)

/-- Days of the proleptic Gregorian calendar strictly before Jan 1 of year
`y`. -/
def daysBeforeYear (y : Nat) : Nat :=
  365 * (y - 1) + (y - 1) / 4 + (y - 1) / 400 - (y - 1) / 100

/-- Rata die number of a date (0001-01-01 ↦ 1, a Monday). -/
def rataDie (y m d : Nat) : Nat :=
  daysBeforeYear y + dayOfYear y m d

/-- ISO day of week: Monday ↦ 1 … Sunday ↦ 7. -/
def isoDayOfWeek (y m d : Nat) : Nat :=
  (rataDie y m d - 1) % 7 + 1

/-- Number of ISO weeks in year `y` (52 or 53). -/
def isoWeeksInYear (y : Nat) : Nat :=
  if isoDayOfWeek y 1 1 == 4 || (isLeap y && isoDayOfWeek y 1 1 == 3) then 53
  else 52

/-- ISO-8601 week number of a date, as returned by `isocalendar`. -/
def isoWeek (d : SDate) : Nat :=
  let w := (dayOfYear d.year d.month d.day + 10 -
    isoDayOfWeek d.year d.month d.day) / 7
  if w == 0 then isoWeeksInYear (d.year - 1)
  else if w == 53 && isoWeeksInYear d.year != 53 then 1
  else w

example : isoDayOfWeek 2026 10 12 = 1 := by decide
example : isoWeek ⟨2026, 1, 1⟩ = 1 := by decide
example : isoWeek ⟨2021, 1, 1⟩ = 53 := by decide
example : isoWeek ⟨2026, 10 ,12⟩ = 42 := by decide

/-! ### AI Gateway: `init_gemini` and `call_gemini_with_retry` -/

/-- Outcome of one external `model.generate_content` call made with a given
credential index (each index is configured at most once per invocation, so
the environment is modelled as a function of the index). -/
inductive CallResult where
  | success (text : String)
  | failure (msg : String)
deriving DecidableEq, Repr

/-- The session state read and written by `call_gemini_with_retry`:
`st.session_state["api_keys"]` and `st.session_state["current_api_key_index"]`. -/
structure GeminiState where
  apiKeys : List String
  currentApiKeyIndex : Nat
deriving DecidableEq, Repr

/-- Substring containment over character lists: `pat` occurs contiguously in
the scanned list. -/
def containsChars (pat : List Char) : List Char → Bool
  | [] => pat.isEmpty
  | c :: cs => pat.isPrefixOf (c :: cs) || containsChars pat cs

/-- Substring containment, the semantics of Python's `pat in s`. -/
def containsSub (s pat : String) : Bool :=
  containsChars pat.data s.data

/-- `error_msg.lower()`, character-wise (the patterns searched for are pure
ASCII, where Python's `str.lower` and `Char.toLower` agree). -/
def lowerChars (s : String) : List Char :=
  s.data.map Char.toLower

/-- `"quota" in error_msg.lower() or "limit" in error_msg.lower()`. -/
def isQuotaError (msg : String) : Bool :=
  containsChars "quota".data (lowerChars msg) ||
    containsChars "limit".data (lowerChars msg)

/-- Terminal message returned when every credential fails with a quota error. -/
def allExhaustedMsg : String :=
  "❌ 모든 API 키의 할당량이 초과되었습니다. 내일 다시 시도해주세요."

/-- Message returned on a non-quota error, embedding the raw error text. -/
def rawErrorMsg (m : String) : String := "❌ 오류: " ++ m

/-- The generic fallback string after the attempt loop. -/
def apiCallFailMsg : String := "❌ API 호출 실패"

/-- Result of one `call_gemini_with_retry` invocation: the returned string,
the final value of `st.session_state["current_api_key_index"]`, and the list
of credential indices actually attempted (one generation call each), in
order. -/
structure RetryResult where
  output : String
  cursor : Nat
  trace : List Nat
deriving DecidableEq, Repr

/-- The attempt loop of `call_gemini_with_retry`, entered with `fuel`
iterations remaining (`fuel + attempt = len(api_keys)` at every call).
`fuel = 0` is the loop falling through to the trailing
`return "❌ API 호출 실패"`.  On the last iteration (`fuel = 1`, i.e.
`attempt == len(api_keys) - 1`) a quota failure returns the all-exhausted
message instead of continuing. -/
def retryFrom (oracle : Nat → CallResult) (n startIndex cursor attempt : Nat) :
    Nat → RetryResult
  | 0 => ⟨apiCallFailMsg, cursor, []⟩
  | fuel + 1 =>
    let idx := (startIndex + attempt) % n
    match oracle idx with
    | CallResult.success t => ⟨t, idx, [idx]⟩
    | CallResult.failure m =>
      if isQuotaError m then
        match fuel with
        | 0 => ⟨allExhaustedMsg, cursor, [idx]⟩
        | f + 1 =>
          let r := retryFrom oracle n startIndex cursor (attempt + 1) (f + 1)
          ⟨r.output, r.cursor, idx :: r.trace⟩
      else ⟨rawErrorMsg m, cursor, [idx]⟩

/-- `call_gemini_with_retry`: rotate through all keys starting from the
stored cursor. -/
def call_gemini_with_retry (oracle : Nat → CallResult) (st : GeminiState) :
    RetryResult :=
  retryFrom oracle st.apiKeys.length st.currentApiKeyIndex
    st.currentApiKeyIndex 0 st.apiKeys.length

/-- Result of `init_gemini`: the empty-list check fires before the key loop
(`CredentialConfigError`); otherwise the first key whose
`GenerativeModel` construction succeeds becomes the stored cursor. -/
inductive InitStatus where
  | credentialConfigError
  | allKeysFailed
  | ready (idx : Nat)
deriving DecidableEq, Repr

/-- `init_gemini`, with `constructOk i` modelling whether configuring key `i`
and constructing the model raises. -/
def init_gemini (constructOk : Nat → Bool) (apiKeys : List String) :
    InitStatus :=
  if apiKeys.isEmpty then InitStatus.credentialConfigError
  else
    match (List.range apiKeys.length).find? constructOk with
    | some i => InitStatus.ready i
    | none => InitStatus.allKeysFailed

/-! ### Historical Week Matcher: `get_this_week_history` -/

/-- The row filter of `get_this_week_history`: same ISO week as the reference
date, or same month with the day in the closed interval
`[current_date.day - 7, current_date.day + 7]` (Python integer arithmetic, so
the bounds are taken in `ℤ` with no calendar-rollover correction). -/
def weekDayMatch (cd d : SDate) : Bool :=
  isoWeek d == isoWeek cd ||
    (d.month == cd.month &&
      ((cd.day : Int) - 7 ≤ (d.day : Int) && (d.day : Int) ≤ (cd.day : Int) + 7))

/-- The full mask applied for year `y`: rows with an unparseable date compare
false in every `.dt` comparison and are excluded. -/
def entryMatches (cd : SDate) (y : Nat) (e : Entry) : Bool :=
  match e.date with
  | none => false
  | some d => d.year == y && weekDayMatch cd d

/-- `df[mask]` for year `y`: filtering keeps the original row order. -/
def yearRows (table : List Entry) (cd : SDate) (y : Nat) : List Entry :=
  table.filter (entryMatches cd y)

/-- `df['날짜'].dt.year.min()`: minimum year among parseable dates, `none`
when there is none (where the source would raise on `range`). -/
def minTableYear (table : List Entry) : Option Nat :=
  (table.filterMap (fun e => e.date.map SDate.year)).min?

/-- `get_this_week_history`: for every year from the minimum table year up to
(excluding) the reference year, collect the matching rows, skipping years
with no match. -/
def get_this_week_history (table : List Entry) (cd : SDate) :
    List (Nat × List Entry) :=
  match minTableYear table with
  | none => []
  | some m =>
    (List.range' m (cd.year - m)).filterMap (fun y =>
      let ys := yearRows table cd y
      if ys.isEmpty then none else some (y, ys))

/-! ### Recurring Event Detector: `find_recurring_events` -/

/-- One row of the aggregated frame: the 제목 index, the 횟수 count and the
`first`-aggregated 카테고리 and 내용 columns. -/
structure RecurringRow where
  title : String
  count : Nat
  category : String
  body : String
deriving DecidableEq, Repr

/-- `df[df['날짜'].dt.month == month]`: rows of the target month, original
order, unparseable dates excluded. -/
def monthRows (table : List Entry) (m : Nat) : List Entry :=
  table.filter (fun e =>
    match e.date with
    | none => false
    | some d => d.month == m)

/-- Code-point lexicographic comparison of character lists: the semantics of
Python's `str` ordering used by `groupby`'s key sort. -/
def charListLt : List Char → List Char → Bool
  | _, [] => false
  | [], _ :: _ => true
  | a :: as, b :: bs =>
    decide (a.toNat < b.toNat) || (a.toNat == b.toNat && charListLt as bs)

/-- Python string `<` on titles. -/
def titleLt (s t : String) : Bool := charListLt s.data t.data

/-- Ordered insertion of a title into an ascending list. -/
def insertTitle (t : String) : List String → List String
  | [] => [t]
  | x :: xs => if titleLt t x then t :: x :: xs else x :: insertTitle t xs

/-- Ascending insertion sort on titles: `groupby('제목')` (with its default
`sort=True`) emits the groups in ascending key order. -/
def sortTitles : List String → List String
  | [] => []
  | t :: ts => insertTitle t (sortTitles ts)

/-- The group keys of `groupby('제목')`, ascending. -/
def groupTitles (md : List Entry) : List String :=
  sortTitles (md.map Entry.title).dedup

/-- The aggregated row for title `t`: 횟수 = count of (all non-null) 날짜
values in the group, 카테고리 and 내용 = `first` aggregation, i.e. the
first entry of the group in original row order (the string columns hold no
missing values, see `Entry`). -/
def rowFor (md : List Entry) (t : String) : Option RecurringRow :=
  match md.filter (fun e => e.title == t) with
  | [] => none
  | e :: es => some ⟨t, es.length + 1, e.category, e.body⟩

/-- Stable descending insertion by 횟수. -/
def insertDesc (r : RecurringRow) : List RecurringRow → List RecurringRow
  | [] => [r]
  | x :: xs => if r.count < x.count then x :: insertDesc r xs else r :: x :: xs

/-- `sort_values('횟수', ascending=False)` (default `kind='quicksort'`),
modelled as a stable descending sort.  pandas reverses, argsorts ascending
and reverses back; numpy's `argsort(kind='quicksort')` is a stable insertion
sort only up to its partition cutoff (at most 16 elements), so this model is
faithful to the tie order for at most 16 qualifying groups — beyond that the
partitioning may reorder tied counts and only count-descending order is
guaranteed.  Theorems about tie order are therefore restricted to the
16-group regime; every other theorem about the result holds under any
descending reordering of the same rows. -/
def sortByCountDesc : List RecurringRow → List RecurringRow
  | [] => []
  | r :: rs => insertDesc r (sortByCountDesc rs)

/-- Adjacent-row invariant of the final frame: counts are non-increasing and
rows tied on count are ordered by ascending title (the `groupby` key
order). -/
def CountTieRel (a b : RecurringRow) : Prop :=
  b.count ≤ a.count ∧ (a.count = b.count → titleLt a.title b.title = true)

/-- `find_recurring_events`: group the month's rows by title, keep groups
with count ≥ 3, sort descending by count. -/
def find_recurring_events (table : List Entry) (m : Nat) : List RecurringRow :=
  let md := monthRows table m
  let rows := (groupTitles md).filterMap (rowFor md)
  sortByCountDesc (rows.filter (fun r => 3 ≤ r.count))

/-! ### Suggestion Composer: `suggest_next_month_ads` -/

/-- The data embedded in the prompt string: `past_events` =
`month_data[['날짜','카테고리','제목','내용']].head(50).to_dict('records')`
and `recurring_events` = `recurring.head(20).to_dict('index')` (keyed by the
제목 index).  `Entry` already carries exactly the four projected columns. -/
structure PromptPayload where
  targetMonth : Nat
  pastEvents : List Entry
  recurringEvents : List RecurringRow
deriving DecidableEq, Repr

/-- The payload `suggest_next_month_ads` embeds into its prompt template. -/
def composePayload (table : List Entry) (m : Nat) : PromptPayload :=
  ⟨m, (monthRows table m).take 50, (find_recurring_events table m).take 20⟩

/-- `suggest_next_month_ads`: build the prompt payload and delegate to
`call_gemini_with_retry`.  `gen p i` is the outcome of the external
generation call for prompt payload `p` under credential index `i`. -/
def suggest_next_month_ads (gen : PromptPayload → Nat → CallResult)
    (st : GeminiState) (table : List Entry) (m : Nat) : RetryResult :=
  call_gemini_with_retry (gen (composePayload table m)) st

/-! ### Concrete fixtures used by witnesses and counterexamples -/

/-- A table whose only parsed date lies in the week before the reference date
`2026-10-12` of the previous year. -/
def lastYearTable : List Entry :=
  [⟨some ⟨2025, 10, 10⟩, "예배", "감사예배", "본문"⟩]

/-- A table holding only current-year (2026) dates. -/
def currentYearTable : List Entry :=
  [⟨some ⟨2026, 10, 12⟩, "예배", "감사예배", "본문"⟩]

/-- A table where one title recurs three times in March and another appears
once. -/
def recurringTable : List Entry :=
  [⟨some ⟨2021, 3, 7⟩, "행사", "봄맞이 대청소", "첫해"⟩,
   ⟨some ⟨2022, 3, 6⟩, "행사", "봄맞이 대청소", "둘째해"⟩,
   ⟨some ⟨2023, 3, 5⟩, "행사", "봄맞이 대청소", "셋째해"⟩,
   ⟨some ⟨2023, 3, 12⟩, "기타", "일회성 행사", "한번"⟩]

/-- A table with two titles tied at three March occurrences each, where the
title that occurs first in the table ("나중") sorts after the other one
("가온"). -/
def tieTable : List Entry :=
  [⟨some ⟨2021, 3, 7⟩, "행사", "나중", "b1"⟩,
   ⟨some ⟨2022, 3, 6⟩, "행사", "나중", "b2"⟩,
   ⟨some ⟨2023, 3, 5⟩, "행사", "나중", "b3"⟩,
   ⟨some ⟨2021, 3, 14⟩, "예배", "가온", "a1"⟩,
   ⟨some ⟨2022, 3, 13⟩, "예배", "가온", "a2"⟩,
   ⟨some ⟨2023, 3, 12⟩, "예배", "가온", "a3"⟩]

/-- Fixture oracle: every credential succeeds with text "ok". -/
def okOracle : Nat → CallResult := fun _ => CallResult.success "ok"

/-- Fixture oracle: every credential fails with a quota error. -/
def quotaOracle : Nat → CallResult :=
  fun _ => CallResult.failure "429 Resource has been exhausted (check quota)"

/-- Fixture oracle: credential 0 fails with a non-quota error, the rest
succeed. -/
def boomOracle : Nat → CallResult :=
  fun i => if i == 0 then CallResult.failure "boom" else CallResult.success "ok"

/-- Fixture oracle: credential 1 fails with a quota error, the rest
succeed. -/
def key1QuotaOracle : Nat → CallResult :=
  fun i => if i == 1 then CallResult.failure "quota" else CallResult.success "ok"

/-- Fixture oracle: credential 0 exhausts its quota, credential 1 fails with
a non-quota error, credential 2 would succeed but must never be reached. -/
def quotaThenBoomOracle : Nat → CallResult :=
  fun i =>
    if i == 0 then CallResult.failure "quota exceeded"
    else if i == 1 then CallResult.failure "boom"
    else CallResult.success "ok"

/-! ### Helper lemmas about the retry loop -/

/-- Unfolding: the loop fell through (no iterations left). -/
theorem retryFrom_zero (oracle : Nat → CallResult) (n startIndex cursor attempt : Nat) :
    retryFrom oracle n startIndex cursor attempt 0 = ⟨apiCallFailMsg, cursor, []⟩ := rfl

/-- Unfolding: the current attempt succeeds. -/
theorem retryFrom_succ_success (oracle : Nat → CallResult)
    (n startIndex cursor attempt fuel : Nat) (t : String)
    (ho : oracle ((startIndex + attempt) % n) = CallResult.success t) :
    retryFrom oracle n startIndex cursor attempt (fuel + 1) =
      ⟨t, (startIndex + attempt) % n, [(startIndex + attempt) % n]⟩ := by
  rw [retryFrom.eq_def]; simp [ho]

/-- Unfolding: the last attempt fails with a quota error. -/
theorem retryFrom_succ_quota_last (oracle : Nat → CallResult)
    (n startIndex cursor attempt : Nat) (m : String)
    (ho : oracle ((startIndex + attempt) % n) = CallResult.failure m)
    (hq : isQuotaError m = true) :
    retryFrom oracle n startIndex cursor attempt 1 =
      ⟨allExhaustedMsg, cursor, [(startIndex + attempt) % n]⟩ := by
  rw [retryFrom.eq_def]; simp [ho, hq]

/-- Unfolding: a non-last attempt fails with a quota error and the loop
continues with the next credential. -/
theorem retryFrom_succ_quota_cont (oracle : Nat → CallResult)
    (n startIndex cursor attempt fuel : Nat) (m : String)
    (ho : oracle ((startIndex + attempt) % n) = CallResult.failure m)
    (hq : isQuotaError m = true) :
    retryFrom oracle n startIndex cursor attempt (fuel + 2) =
      ⟨(retryFrom oracle n startIndex cursor (attempt + 1) (fuel + 1)).output,
        (retryFrom oracle n startIndex cursor (attempt + 1) (fuel + 1)).cursor,
        (startIndex + attempt) % n ::
          (retryFrom oracle n startIndex cursor (attempt + 1) (fuel + 1)).trace⟩ := by
  rw [retryFrom.eq_def]; simp [ho, hq]

/-- Unfolding: the current attempt fails with a non-quota error. -/
theorem retryFrom_succ_other (oracle : Nat → CallResult)
    (n startIndex cursor attempt fuel : Nat) (m : String)
    (ho : oracle ((startIndex + attempt) % n) = CallResult.failure m)
    (hq : isQuotaError m = false) :
    retryFrom oracle n startIndex cursor attempt (fuel + 1) =
      ⟨rawErrorMsg m, cursor, [(startIndex + attempt) % n]⟩ := by
  rw [retryFrom.eq_def]; simp [ho, hq]

/-- The indices the loop attempts, starting from `attempt`, form a prefix of
the rotation order `(startIndex + attempt + j) % n`. -/
theorem retryFrom_trace (oracle : Nat → CallResult) (n startIndex cursor : Nat) :
    ∀ fuel attempt : Nat, ∃ k, k ≤ fuel ∧
      (retryFrom oracle n startIndex cursor attempt fuel).trace =
        (List.range k).map (fun j => (startIndex + (attempt + j)) % n) := by
  intro fuel
  induction fuel with
  | zero => exact fun _ => ⟨0, Nat.le_refl 0, rfl⟩
  | succ f ih =>
    intro attempt
    have hone : [(startIndex + attempt) % n] =
        (List.range 1).map (fun j => (startIndex + (attempt + j)) % n) := by
      simp [List.range_succ]
    cases ho : oracle ((startIndex + attempt) % n) with
    | success t =>
      rw [retryFrom_succ_success oracle n startIndex cursor attempt f t ho]
      exact ⟨1, by omega, hone⟩
    | failure m =>
      by_cases hq : isQuotaError m
      · cases f with
        | zero =>
          rw [retryFrom_succ_quota_last oracle n startIndex cursor attempt m ho hq]
          exact ⟨1, by omega, hone⟩
        | succ f2 =>
          obtain ⟨k, hk, htr⟩ := ih (attempt + 1)
          refine ⟨k + 1, by omega, ?_⟩
          rw [retryFrom_succ_quota_cont oracle n startIndex cursor attempt f2 m ho hq]
          show (startIndex + attempt) % n ::
            (retryFrom oracle n startIndex cursor (attempt + 1) (f2 + 1)).trace = _
          rw [htr, List.range_succ_eq_map, List.map_cons, List.map_map]
          refine congrArg₂ List.cons (by simp) ?_
          refine List.map_congr_left fun j _ => ?_
          simp only [Function.comp_apply]
          congr 1
          omega
      · rw [retryFrom_succ_other oracle n startIndex cursor attempt f m ho
          (by simpa using hq)]
        exact ⟨1, by omega, hone⟩

/-- The stored cursor is left at its incoming value unless the run ended in a
successful call, in which case it is the index of that call and the output is
its text. -/
theorem retryFrom_cursor (oracle : Nat → CallResult) (n startIndex cursor : Nat) :
    ∀ fuel attempt : Nat,
      (retryFrom oracle n startIndex cursor attempt fuel).cursor = cursor ∨
        ∃ t, oracle ((retryFrom oracle n startIndex cursor attempt fuel).cursor) =
            CallResult.success t ∧
          (retryFrom oracle n startIndex cursor attempt fuel).output = t := by
  intro fuel
  induction fuel with
  | zero => exact fun _ => Or.inl rfl
  | succ f ih =>
    intro attempt
    cases ho : oracle ((startIndex + attempt) % n) with
    | success t =>
      rw [retryFrom_succ_success oracle n startIndex cursor attempt f t ho]
      exact Or.inr ⟨t, ho, rfl⟩
    | failure m =>
      by_cases hq : isQuotaError m
      · cases f with
        | zero =>
          rw [retryFrom_succ_quota_last oracle n startIndex cursor attempt m ho hq]
          exact Or.inl rfl
        | succ f2 =>
          have h2 := ih (attempt + 1)
          rw [retryFrom_succ_quota_cont oracle n startIndex cursor attempt f2 m ho hq]
          exact h2
      · rw [retryFrom_succ_other oracle n startIndex cursor attempt f m ho
          (by simpa using hq)]
        exact Or.inl rfl

/-- With at least one iteration to run, the loop returns from one of its
three in-loop return sites: a successful generation, the all-exhausted
terminal message, or the raw-error message of a non-quota failure; and it
attempts at least one call. -/
theorem retryFrom_output (oracle : Nat → CallResult) (n startIndex cursor : Nat) :
    ∀ fuel attempt : Nat, 0 < fuel →
      (retryFrom oracle n startIndex cursor attempt fuel).trace ≠ [] ∧
      ((∃ i t, oracle i = CallResult.success t ∧
          (retryFrom oracle n startIndex cursor attempt fuel).output = t) ∨
        (retryFrom oracle n startIndex cursor attempt fuel).output = allExhaustedMsg ∨
        (∃ i m, oracle i = CallResult.failure m ∧ isQuotaError m = false ∧
          (retryFrom oracle n startIndex cursor attempt fuel).output = rawErrorMsg m)) := by
  intro fuel
  induction fuel with
  | zero => exact fun _ h => absurd h (by omega)
  | succ f ih =>
    intro attempt _
    cases ho : oracle ((startIndex + attempt) % n) with
    | success t =>
      rw [retryFrom_succ_success oracle n startIndex cursor attempt f t ho]
      exact ⟨by simp, Or.inl ⟨(startIndex + attempt) % n, t, ho, rfl⟩⟩
    | failure m =>
      by_cases hq : isQuotaError m
      · cases f with
        | zero =>
          rw [retryFrom_succ_quota_last oracle n startIndex cursor attempt m ho hq]
          exact ⟨by simp, Or.inr (Or.inl rfl)⟩
        | succ f2 =>
          have h2 := ih (attempt + 1) (by omega)
          rw [retryFrom_succ_quota_cont oracle n startIndex cursor attempt f2 m ho hq]
          exact ⟨by simp, h2.2⟩
      · rw [retryFrom_succ_other oracle n startIndex cursor attempt f m ho
          (by simpa using hq)]
        exact ⟨by simp, Or.inr (Or.inr ⟨(startIndex + attempt) % n, m, ho,
          by simpa using hq, rfl⟩)⟩

/-! ### Claims about the AI gateway -/

/-- C1: for every non-empty credential list and every start index, the loop
attempts credentials in the order `(startIndex + attempt) % n`, makes at most
`n` generation calls, and the stored cursor either keeps its incoming value
or is the index of an attempt that succeeded (with the successful text as
output); it is never moved to a failed index. -/
theorem gateway_rotation_and_cursor (oracle : Nat → CallResult)
    (st : GeminiState) (h : st.apiKeys ≠ []) :
    (call_gemini_with_retry oracle st).trace =
      (List.range (call_gemini_with_retry oracle st).trace.length).map
        (fun a => (st.currentApiKeyIndex + a) % st.apiKeys.length) ∧
    (call_gemini_with_retry oracle st).trace.length ≤ st.apiKeys.length ∧
    ((call_gemini_with_retry oracle st).cursor = st.currentApiKeyIndex ∨
      ∃ t, oracle (call_gemini_with_retry oracle st).cursor = CallResult.success t ∧
        (call_gemini_with_retry oracle st).output = t) := by
  obtain ⟨k, hk, htr⟩ := retryFrom_trace oracle st.apiKeys.length
    st.currentApiKeyIndex st.currentApiKeyIndex st.apiKeys.length 0
  have hc := retryFrom_cursor oracle st.apiKeys.length
    st.currentApiKeyIndex st.currentApiKeyIndex st.apiKeys.length 0
  have hu : call_gemini_with_retry oracle st =
      retryFrom oracle st.apiKeys.length st.currentApiKeyIndex
        st.currentApiKeyIndex 0 st.apiKeys.length := rfl
  rw [hu]
  refine ⟨?_, ?_, hc⟩
  · rw [htr]
    simp
  · rw [htr]
    simpa using hk

/-- C1 witness: keys `["A", "B"]`, cursor 1, key 1 fails with a quota error,
key 0 succeeds. -/
theorem gateway_rotation_and_cursor_witness :
    ((⟨["A", "B"], 1⟩ : GeminiState).apiKeys ≠ []) ∧
    ((call_gemini_with_retry key1QuotaOracle ⟨["A", "B"], 1⟩).trace =
      (List.range
        (call_gemini_with_retry key1QuotaOracle ⟨["A", "B"], 1⟩).trace.length).map
        (fun a => (1 + a) % 2) ∧
    (call_gemini_with_retry key1QuotaOracle ⟨["A", "B"], 1⟩).trace.length ≤ 2 ∧
    ((call_gemini_with_retry key1QuotaOracle ⟨["A", "B"], 1⟩).cursor = 1 ∨
      ∃ t, key1QuotaOracle
          (call_gemini_with_retry key1QuotaOracle ⟨["A", "B"], 1⟩).cursor =
            CallResult.success t ∧
        (call_gemini_with_retry key1QuotaOracle ⟨["A", "B"], 1⟩).output = t)) :=
  ⟨by decide,
    gateway_rotation_and_cursor key1QuotaOracle ⟨["A", "B"], 1⟩ (by decide)⟩

/-- C4: with credentials `["A", "B", "C"]`, cursor 0 and every credential
failing with a quota error, the call returns the fixed all-exhausted message
after exactly the three attempts 0, 1, 2, leaving the cursor untouched (and,
being a total function, propagates no exception). -/
theorem gateway_all_quota_exhausted :
    call_gemini_with_retry quotaOracle ⟨["A", "B", "C"], 0⟩ =
      ⟨allExhaustedMsg, 0, [0, 1, 2]⟩ := by
  decide

/-- If the attempts before attempt `k` all fail with quota errors and
attempt `k` fails with a non-quota error, the loop returns the raw-error
message right there: the trace is exactly attempts `0..k` and the cursor is
untouched. -/
theorem retryFrom_nonquota (oracle : Nat → CallResult) (n startIndex cursor : Nat) :
    ∀ (fuel attempt k : Nat), k < fuel →
      (∀ j, j < k → ∃ mj, oracle ((startIndex + (attempt + j)) % n) =
        CallResult.failure mj ∧ isQuotaError mj = true) →
      ∀ m, oracle ((startIndex + (attempt + k)) % n) = CallResult.failure m →
        isQuotaError m = false →
        retryFrom oracle n startIndex cursor attempt fuel =
          ⟨rawErrorMsg m, cursor,
            (List.range (k + 1)).map (fun j => (startIndex + (attempt + j)) % n)⟩ := by
  intro fuel
  induction fuel with
  | zero => intro attempt k hk; exact absurd hk (by omega)
  | succ f ih =>
    intro attempt k hk hprev m hm hq
    cases k with
    | zero =>
      have hm0 : oracle ((startIndex + attempt) % n) = CallResult.failure m := by
        simpa using hm
      rw [retryFrom_succ_other oracle n startIndex cursor attempt f m hm0 hq]
      have hone : [(startIndex + attempt) % n] =
          (List.range (0 + 1)).map (fun j => (startIndex + (attempt + j)) % n) := by
        simp [List.range_succ]
      exact congrArg (fun tr => RetryResult.mk (rawErrorMsg m) cursor tr) hone
    | succ k2 =>
      obtain ⟨m0, hm0, hq0⟩ := hprev 0 (by omega)
      have hm0a : oracle ((startIndex + attempt) % n) = CallResult.failure m0 := by
        simpa using hm0
      obtain ⟨f2, rfl⟩ : ∃ f2, f = f2 + 1 := by
        cases f with
        | zero => omega
        | succ f2 => exact ⟨f2, rfl⟩
      rw [retryFrom_succ_quota_cont oracle n startIndex cursor attempt f2 m0 hm0a hq0]
      have hih := ih (attempt + 1) k2 (by omega)
        (fun j hj => by
          obtain ⟨mj, hmj, hqj⟩ := hprev (j + 1) (by omega)
          refine ⟨mj, ?_, hqj⟩
          have hsh : attempt + 1 + j = attempt + (j + 1) := by omega
          rw [hsh]
          exact hmj)
        m (by
          have hsh : attempt + 1 + k2 = attempt + (k2 + 1) := by omega
          rw [hsh]
          exact hm) hq
      rw [hih]
      have htr : (startIndex + attempt) % n ::
          (List.range (k2 + 1)).map (fun j => (startIndex + (attempt + 1 + j)) % n) =
          (List.range (k2 + 1 + 1)).map (fun j => (startIndex + (attempt + j)) % n) := by
        conv_rhs => rw [List.range_succ_eq_map]
        rw [List.map_cons, List.map_map]
        refine congrArg₂ List.cons (by simp) ?_
        refine List.map_congr_left fun j _ => ?_
        simp only [Function.comp_apply]
        congr 1
        omega
      show (⟨rawErrorMsg m, cursor, (startIndex + attempt) % n ::
          (List.range (k2 + 1)).map (fun j => (startIndex + (attempt + 1 + j)) % n)⟩ :
            RetryResult) =
        ⟨rawErrorMsg m, cursor,
          (List.range (k2 + 1 + 1)).map (fun j => (startIndex + (attempt + j)) % n)⟩
      rw [htr]

/-- C5: if any attempt — the first, or one following earlier quota
failures — fails with an error whose message contains neither "quota" nor
"limit" (case-insensitively), the call stops right after that attempt,
returns the message embedding the raw error text, leaves the cursor
untouched, and tries no further credential: the trace is exactly the
attempts up to and including the failing one. -/
theorem gateway_nonquota_stops (oracle : Nat → CallResult) (keys : List String)
    (start k : Nat) (m : String) (hk : k < keys.length)
    (hprev : ∀ j, j < k → ∃ mj, oracle ((start + j) % keys.length) =
      CallResult.failure mj ∧ isQuotaError mj = true)
    (ho : oracle ((start + k) % keys.length) = CallResult.failure m)
    (hq : isQuotaError m = false) :
    call_gemini_with_retry oracle ⟨keys, start⟩ =
      ⟨rawErrorMsg m, start,
        (List.range (k + 1)).map (fun j => (start + j) % keys.length)⟩ := by
  have hu : call_gemini_with_retry oracle ⟨keys, start⟩ =
      retryFrom oracle keys.length start start 0 keys.length := rfl
  rw [hu, retryFrom_nonquota oracle keys.length start start keys.length 0 k hk
    (by simpa using hprev) m (by simpa using ho) hq]
  refine congrArg (fun tr => RetryResult.mk (rawErrorMsg m) start tr) ?_
  refine List.map_congr_left fun j _ => ?_
  congr 1
  omega

/-- C5 witness: keys `["A", "B", "C"]`, cursor 0; key 0 fails with a quota
error, key 1 fails with the non-quota message "boom"; the call stops after
attempts 0 and 1 with the raw error — key 2 is never tried. -/
theorem gateway_nonquota_stops_witness :
    (1 < (["A", "B", "C"] : List String).length) ∧
    (∀ j, j < 1 → ∃ mj,
      quotaThenBoomOracle ((0 + j) % (["A", "B", "C"] : List String).length) =
        CallResult.failure mj ∧ isQuotaError mj = true) ∧
    quotaThenBoomOracle ((0 + 1) % (["A", "B", "C"] : List String).length) =
      CallResult.failure "boom" ∧
    isQuotaError "boom" = false ∧
    call_gemini_with_retry quotaThenBoomOracle ⟨["A", "B", "C"], 0⟩ =
      ⟨rawErrorMsg "boom", 0,
        (List.range 2).map (fun j => (0 + j) % (["A", "B", "C"] : List String).length)⟩ := by
  have hprev : ∀ j, j < 1 → ∃ mj,
      quotaThenBoomOracle ((0 + j) % (["A", "B", "C"] : List String).length) =
        CallResult.failure mj ∧ isQuotaError mj = true := by
    intro j hj
    have hj0 : j = 0 := by omega
    subst hj0
    exact ⟨"quota exceeded", by decide, by decide⟩
  exact ⟨by decide, hprev, by decide, by decide,
    gateway_nonquota_stops quotaThenBoomOracle ["A", "B", "C"] 0 1 "boom"
      (by decide) hprev (by decide) (by decide)⟩

/-- C6: with an empty credential list, `init_gemini` reports the
configuration error before touching any key, and the retry loop performs
zero attempts. -/
theorem gateway_empty_credentials (constructOk : Nat → Bool)
    (oracle : Nat → CallResult) (start : Nat) :
    init_gemini constructOk [] = InitStatus.credentialConfigError ∧
    call_gemini_with_retry oracle ⟨[], start⟩ = ⟨apiCallFailMsg, start, []⟩ :=
  ⟨rfl, rfl⟩

/-- C10: the trailing fallback string is produced, with zero attempts,
exactly when the session's credential list is empty; with a non-empty list
the call returns from inside the loop — a generated text, the all-exhausted
message, or a raw-error message — after at least one attempt. -/
theorem gateway_fallback_iff_empty (oracle : Nat → CallResult) (st : GeminiState) :
    (st.apiKeys = [] →
      call_gemini_with_retry oracle st =
        ⟨apiCallFailMsg, st.currentApiKeyIndex, []⟩) ∧
    (st.apiKeys ≠ [] →
      (call_gemini_with_retry oracle st).trace ≠ [] ∧
      ((∃ i t, oracle i = CallResult.success t ∧
          (call_gemini_with_retry oracle st).output = t) ∨
        (call_gemini_with_retry oracle st).output = allExhaustedMsg ∨
        (∃ i m, oracle i = CallResult.failure m ∧ isQuotaError m = false ∧
          (call_gemini_with_retry oracle st).output = rawErrorMsg m))) := by
  obtain ⟨keys, cur⟩ := st
  constructor
  · intro he
    subst he
    rfl
  · intro hne
    exact retryFrom_output oracle keys.length cur cur keys.length 0
      (List.length_pos.mpr hne)

/-- C10 witness: a single working credential returns generated text from
inside the loop in one attempt. -/
theorem gateway_fallback_iff_empty_witness :
    ((⟨["A"], 0⟩ : GeminiState).apiKeys ≠ []) ∧
    ((call_gemini_with_retry okOracle ⟨["A"], 0⟩).trace ≠ [] ∧
      ((∃ i t, okOracle i = CallResult.success t ∧
          (call_gemini_with_retry okOracle ⟨["A"], 0⟩).output = t) ∨
        (call_gemini_with_retry okOracle ⟨["A"], 0⟩).output = allExhaustedMsg ∨
        (∃ i m, okOracle i = CallResult.failure m ∧ isQuotaError m = false ∧
          (call_gemini_with_retry okOracle ⟨["A"], 0⟩).output = rawErrorMsg m))) :=
  ⟨by decide,
    (gateway_fallback_iff_empty okOracle ⟨["A"], 0⟩).2 (by decide)⟩

/-! ### Helper lemmas about the Historical Week Matcher -/

/-- Unfolding: no parseable dates (where the source would raise on `range`). -/
theorem history_eq_nil_of_none (table : List Entry) (cd : SDate)
    (hm : minTableYear table = none) :
    get_this_week_history table cd = [] := by
  unfold get_this_week_history
  rw [hm]

/-- Unfolding: with a minimum table year `m`, the result is the filterMap
over the year range. -/
theorem history_eq_of_some (table : List Entry) (cd : SDate) (m : Nat)
    (hm : minTableYear table = some m) :
    get_this_week_history table cd =
      (List.range' m (cd.year - m)).filterMap (fun y =>
        if (yearRows table cd y).isEmpty then none
        else some (y, yearRows table cd y)) := by
  unfold get_this_week_history
  rw [hm]

/-! ### Claims about the Historical Week Matcher -/

/-- C2: every entry placed under key `Y` has a parsed date with `year = Y`,
`Y` strictly below the reference year, and either the same ISO week as the
reference date or the same month with the day inside the closed interval
`[day - 7, day + 7]` (bounds taken in `ℤ`, no rollover correction). -/
theorem history_week_filter_sound (table : List Entry) (cd : SDate)
    (y : Nat) (es : List Entry) (e : Entry)
    (hy : (y, es) ∈ get_this_week_history table cd) (he : e ∈ es) :
    y < cd.year ∧ ∃ d, e.date = some d ∧ d.year = y ∧
      (isoWeek d = isoWeek cd ∨
        (d.month = cd.month ∧ (cd.day : Int) - 7 ≤ (d.day : Int) ∧
          (d.day : Int) ≤ (cd.day : Int) + 7)) := by
  cases hm : minTableYear table with
  | none =>
    rw [history_eq_nil_of_none table cd hm] at hy
    simp at hy
  | some m =>
    rw [history_eq_of_some table cd m hm] at hy
    obtain ⟨y2, hy2, hsome⟩ := List.mem_filterMap.mp hy
    by_cases hemp : (yearRows table cd y2).isEmpty
    · rw [if_pos hemp] at hsome; cases hsome
    · rw [if_neg hemp] at hsome
      have hpair := Option.some.inj hsome
      have h1 : y2 = y := congrArg Prod.fst hpair
      have h2 : yearRows table cd y2 = es := congrArg Prod.snd hpair
      obtain ⟨hm1, hm2⟩ := List.mem_range'_1.mp hy2
      have hyy : y < cd.year := by omega
      refine ⟨hyy, ?_⟩
      rw [← h2] at he
      obtain ⟨_, hmatch⟩ := List.mem_filter.mp he
      cases hd : e.date with
      | none => rw [entryMatches, hd] at hmatch; cases hmatch
      | some d =>
        rw [entryMatches, hd] at hmatch
        simp only [weekDayMatch, Bool.and_eq_true, Bool.or_eq_true, beq_iff_eq,
          decide_eq_true_eq] at hmatch
        obtain ⟨hyear, hweek⟩ := hmatch
        exact ⟨d, rfl, by omega, by tauto⟩

/-- C2 witness: reference date 2026-10-12, one entry dated 2025-10-10. -/
theorem history_week_filter_sound_witness :
    ((2025, lastYearTable) ∈
      get_this_week_history lastYearTable ⟨2026, 10, 12⟩) ∧
    ((⟨some ⟨2025, 10, 10⟩, "예배", "감사예배", "본문"⟩ : Entry) ∈ lastYearTable) ∧
    (2025 < (⟨2026, 10, 12⟩ : SDate).year ∧
      ∃ d, (⟨some ⟨2025, 10, 10⟩, "예배", "감사예배", "본문"⟩ : Entry).date = some d ∧
        d.year = 2025 ∧
        (isoWeek d = isoWeek ⟨2026, 10, 12⟩ ∨
          (d.month = (⟨2026, 10, 12⟩ : SDate).month ∧
            ((⟨2026, 10, 12⟩ : SDate).day : Int) - 7 ≤ (d.day : Int) ∧
            (d.day : Int) ≤ ((⟨2026, 10, 12⟩ : SDate).day : Int) + 7))) :=
  ⟨by decide, by decide,
    history_week_filter_sound lastYearTable ⟨2026, 10, 12⟩ 2025 lastYearTable
      ⟨some ⟨2025, 10, 10⟩, "예배", "감사예배", "본문"⟩ (by decide) (by decide)⟩

/-- C8: the result mapping never contains an empty sequence, and a table
whose parsed dates all lie in the reference year yields an empty result. -/
theorem history_omits_empty_years (table : List Entry) (cd : SDate) :
    (∀ p ∈ get_this_week_history table cd, p.2 ≠ []) ∧
    ((∀ e ∈ table, ∀ d, e.date = some d → d.year = cd.year) →
      get_this_week_history table cd = []) := by
  constructor
  · intro p hp
    cases hm : minTableYear table with
    | none =>
      rw [history_eq_nil_of_none table cd hm] at hp
      simp at hp
    | some m =>
      rw [history_eq_of_some table cd m hm] at hp
      obtain ⟨y2, _, hsome⟩ := List.mem_filterMap.mp hp
      by_cases hemp : (yearRows table cd y2).isEmpty
      · rw [if_pos hemp] at hsome; cases hsome
      · rw [if_neg hemp] at hsome
        have h2 : yearRows table cd y2 = p.2 :=
          congrArg Prod.snd (Option.some.inj hsome)
        rw [← h2]
        intro hnil
        rw [hnil] at hemp
        exact hemp rfl
  · intro hall
    cases hm : minTableYear table with
    | none => exact history_eq_nil_of_none table cd hm
    | some m =>
      rw [history_eq_of_some table cd m hm]
      have hmo : ∀ a b : Nat, min a b = a ∨ min a b = b := by
        intro a b
        rcases Nat.le_total a b with h | h
        · exact Or.inl (Nat.min_eq_left h)
        · exact Or.inr (Nat.min_eq_right h)
      have hmem : m ∈ table.filterMap (fun e => e.date.map SDate.year) :=
        List.min?_mem hmo hm
      obtain ⟨e, he, hmap⟩ := List.mem_filterMap.mp hmem
      cases hd : e.date with
      | none => rw [hd] at hmap; cases hmap
      | some d =>
        rw [hd] at hmap
        have hdm : d.year = m := by simpa using hmap
        have hy := hall e he d hd
        have hz : cd.year - m = 0 := by omega
        rw [hz]
        rfl

/-- C8 witness: a table holding only the reference year 2026 produces an
empty mapping. -/
theorem history_omits_empty_years_witness :
    (∀ e ∈ currentYearTable, ∀ d, e.date = some d →
      d.year = (⟨2026, 10, 12⟩ : SDate).year) ∧
    get_this_week_history currentYearTable ⟨2026, 10, 12⟩ = [] := by
  have hall : ∀ e ∈ currentYearTable, ∀ d, e.date = some d →
      d.year = (⟨2026, 10, 12⟩ : SDate).year := by
    intro e he d hd
    rcases List.mem_singleton.mp he with rfl
    cases hd
    rfl
  exact ⟨hall,
    (history_omits_empty_years currentYearTable ⟨2026, 10, 12⟩).2 hall⟩

/-! ### Helper lemmas about the Recurring Event Detector -/

/-- `find?` returns the head of the filtered list. -/
theorem find?_eq_head_of_filter {α : Type} (p : α → Bool) :
    ∀ (l : List α) (e : α) (es : List α),
      l.filter p = e :: es → l.find? p = some e := by
  intro l
  induction l with
  | nil => intro e es h; cases h
  | cons x xs ih =>
    intro e es h
    cases hp : p x with
    | true =>
      rw [List.filter_cons_of_pos hp] at h
      rw [List.find?_cons_of_pos xs hp]
      exact congrArg some (List.head_eq_of_cons_eq h)
    | false =>
      rw [List.filter_cons_of_neg (by simp [hp])] at h
      rw [List.find?_cons_of_neg xs (by simp [hp])]
      cases hf : xs.filter p with
      | nil => rw [hf] at h; cases h
      | cons e2 es2 =>
        rw [hf] at h
        have he := List.head_eq_of_cons_eq h
        rw [← he]
        exact ih e2 es2 hf

/-- Characters with equal code points are equal. -/
theorem char_eq_of_toNat_eq (a b : Char) (h : a.toNat = b.toNat) : a = b := by
  have hv : a.val = b.val := by
    simpa [UInt32.toNat] using UInt32.toNat.inj h
  exact Char.eq_of_val_eq hv

/-- `charListLt` is irreflexive. -/
theorem charListLt_irrefl : ∀ a : List Char, charListLt a a = false := by
  intro a
  induction a with
  | nil => rfl
  | cons x xs ih => simp [charListLt, ih]

/-- `charListLt` is transitive. -/
theorem charListLt_trans : ∀ a b c : List Char, charListLt a b = true →
    charListLt b c = true → charListLt a c = true := by
  intro a
  induction a with
  | nil =>
    intro b c h1 h2
    cases b with
    | nil => cases h1
    | cons y ys =>
      cases c with
      | nil => cases h2
      | cons z zs => rfl
  | cons x xs ih =>
    intro b c h1 h2
    cases b with
    | nil => cases h1
    | cons y ys =>
      cases c with
      | nil => cases h2
      | cons z zs =>
        simp only [charListLt, Bool.or_eq_true, Bool.and_eq_true,
          decide_eq_true_eq, beq_iff_eq] at h1 h2 ⊢
        rcases h1 with h1 | ⟨he1, h1⟩ <;> rcases h2 with h2 | ⟨he2, h2⟩
        · exact Or.inl (by omega)
        · exact Or.inl (by omega)
        · exact Or.inl (by omega)
        · exact Or.inr ⟨by omega, ih ys zs h1 h2⟩

/-- Lists unrelated by `charListLt` in either direction are equal. -/
theorem charListLt_total : ∀ a b : List Char, charListLt a b = false →
    charListLt b a = false → a = b := by
  intro a
  induction a with
  | nil =>
    intro b h1 _
    cases b with
    | nil => rfl
    | cons y ys => cases h1
  | cons x xs ih =>
    intro b h1 h2
    cases b with
    | nil => cases h2
    | cons y ys =>
      simp only [charListLt, Bool.or_eq_false_iff, Bool.and_eq_false_iff,
        decide_eq_false_iff_not, beq_eq_false_iff_ne, ne_eq] at h1 h2
      have hxy : x.toNat = y.toNat := by omega
      rcases h1.2 with hne | htl1
      · exact absurd hxy hne
      · rcases h2.2 with hne | htl2
        · exact absurd hxy.symm hne
        · have hx : x = y := char_eq_of_toNat_eq x y hxy
          subst hx
          rw [ih ys htl1 htl2]

/-- `titleLt` is transitive. -/
theorem titleLt_trans (a b c : String) (h1 : titleLt a b = true)
    (h2 : titleLt b c = true) : titleLt a c = true :=
  charListLt_trans a.data b.data c.data h1 h2

/-- Distinct strings unrelated one way are related the other way. -/
theorem titleLt_of_not (s t : String) (h1 : titleLt s t = false) (h2 : s ≠ t) :
    titleLt t s = true := by
  cases hb : titleLt t s
  · exfalso
    apply h2
    have hd : s.data = t.data := charListLt_total s.data t.data h1 hb
    cases s
    cases t
    exact congrArg String.mk hd
  · rfl

/-- `titleLt` implies inequality. -/
theorem ne_of_titleLt (s t : String) (h : titleLt s t = true) : s ≠ t := by
  intro he
  subst he
  unfold titleLt at h
  rw [charListLt_irrefl] at h
  cases h

/-- Membership in an ordered title insertion. -/
theorem mem_insertTitle (t x : String) :
    ∀ l : List String, x ∈ insertTitle t l ↔ x = t ∨ x ∈ l := by
  intro l
  induction l with
  | nil => simp [insertTitle]
  | cons y ys ih =>
    by_cases h : titleLt t y = true
    · simp [insertTitle, h]
    · simp only [insertTitle, if_neg h, List.mem_cons, ih]
      tauto

/-- Membership in the sorted title list. -/
theorem mem_sortTitles (x : String) :
    ∀ l : List String, x ∈ sortTitles l ↔ x ∈ l := by
  intro l
  induction l with
  | nil => simp [sortTitles]
  | cons y ys ih =>
    simp only [sortTitles, mem_insertTitle, List.mem_cons, ih]

/-- Inserting a fresh title into a strictly ascending list keeps it strictly
ascending. -/
theorem insertTitle_pairwise (t : String) :
    ∀ l : List String, l.Pairwise (fun a b => titleLt a b = true) → t ∉ l →
      (insertTitle t l).Pairwise (fun a b => titleLt a b = true) := by
  intro l
  induction l with
  | nil => intro _ _; simp [insertTitle]
  | cons y ys ih =>
    intro hl hmem
    obtain ⟨hy, hys⟩ := List.pairwise_cons.mp hl
    by_cases h : titleLt t y = true
    · rw [insertTitle, if_pos h]
      refine List.pairwise_cons.mpr ⟨?_, hl⟩
      intro z hz
      rcases List.mem_cons.mp hz with rfl | hz2
      · exact h
      · exact titleLt_trans t y z h (hy z hz2)
    · rw [insertTitle, if_neg h]
      have hne : t ≠ y := fun he => hmem (he ▸ List.mem_cons_self y ys)
      have hf : titleLt t y = false := by simpa using h
      have hyt : titleLt y t = true := titleLt_of_not t y hf hne
      refine List.pairwise_cons.mpr
        ⟨?_, ih hys (fun hc => hmem (List.mem_cons_of_mem y hc))⟩
      intro z hz
      rcases (mem_insertTitle t z ys).mp hz with rfl | hz2
      · exact hyt
      · exact hy z hz2

/-- Sorting a duplicate-free title list yields a strictly ascending list. -/
theorem sortTitles_pairwise :
    ∀ l : List String, l.Nodup →
      (sortTitles l).Pairwise (fun a b => titleLt a b = true) := by
  intro l
  induction l with
  | nil => intro _; simp [sortTitles]
  | cons y ys ih =>
    intro hnd
    obtain ⟨hy, hys⟩ := List.pairwise_cons.mp hnd
    refine insertTitle_pairwise y (sortTitles ys) (ih hys) ?_
    intro hc
    exact hy y ((mem_sortTitles y ys).mp hc) rfl

/-- The title of an aggregated row is its group key. -/
theorem rowFor_title (md : List Entry) (t : String) (r : RecurringRow)
    (h : rowFor md t = some r) : r.title = t := by
  unfold rowFor at h
  cases hf : md.filter (fun e => e.title == t) with
  | nil => rw [hf] at h; cases h
  | cons e es =>
    rw [hf] at h
    cases Option.some.inj h
    rfl

/-- Characterization of an aggregated row: its fields come from the
month-filtered group of its title. -/
theorem rowFor_spec (md : List Entry) (t : String) (r : RecurringRow)
    (h : rowFor md t = some r) :
    ∃ e es, md.filter (fun x => x.title == t) = e :: es ∧
      r = ⟨t, es.length + 1, e.category, e.body⟩ := by
  unfold rowFor at h
  cases hf : md.filter (fun e => e.title == t) with
  | nil => rw [hf] at h; cases h
  | cons e es =>
    rw [hf] at h
    exact ⟨e, es, rfl, (Option.some.inj h).symm⟩

/-- A group key with a non-empty group yields a row. -/
theorem rowFor_isSome (md : List Entry) (t : String) (e : Entry) (es : List Entry)
    (hf : md.filter (fun x => x.title == t) = e :: es) :
    rowFor md t = some ⟨t, es.length + 1, e.category, e.body⟩ := by
  unfold rowFor
  rw [hf]

/-- The aggregated rows carry strictly ascending titles. -/
theorem rows_titles_pairwise (md : List Entry) :
    ((groupTitles md).filterMap (rowFor md)).Pairwise
      (fun a b => titleLt a.title b.title = true) := by
  have hts : (groupTitles md).Pairwise (fun a b => titleLt a b = true) :=
    sortTitles_pairwise (md.map Entry.title).dedup (List.nodup_dedup _)
  refine List.Pairwise.filterMap (rowFor md) ?_ hts
  intro t1 t2 hlt r1 hr1 r2 hr2
  rw [rowFor_title md t1 r1 hr1, rowFor_title md t2 r2 hr2]
  exact hlt

/-- `insertDesc` permutes its inputs. -/
theorem insertDesc_perm (r : RecurringRow) :
    ∀ l : List RecurringRow, List.Perm (insertDesc r l) (r :: l) := by
  intro l
  induction l with
  | nil => exact List.Perm.refl _
  | cons x xs ih =>
    by_cases h : r.count < x.count
    · rw [insertDesc, if_pos h]
      exact (ih.cons x).trans (List.Perm.swap r x xs)
    · rw [insertDesc, if_neg h]

/-- `sortByCountDesc` permutes its input. -/
theorem sortByCountDesc_perm :
    ∀ l : List RecurringRow, List.Perm (sortByCountDesc l) l := by
  intro l
  induction l with
  | nil => exact List.Perm.refl []
  | cons x xs ih =>
    exact (insertDesc_perm x (sortByCountDesc xs)).trans (ih.cons x)

/-- Stable descending insertion preserves the count/tie invariant, provided
the inserted row beats every tied row on title order. -/
theorem insertDesc_pairwise (r : RecurringRow) :
    ∀ l : List RecurringRow, l.Pairwise CountTieRel →
      (∀ y ∈ l, r.count = y.count → titleLt r.title y.title = true) →
      (insertDesc r l).Pairwise CountTieRel := by
  intro l
  induction l with
  | nil => intro _ _; simp [insertDesc, CountTieRel]
  | cons x xs ih =>
    intro hl hr
    obtain ⟨hx, hxs⟩ := List.pairwise_cons.mp hl
    by_cases h : r.count < x.count
    · rw [insertDesc, if_pos h]
      refine List.pairwise_cons.mpr ⟨?_, ih hxs ?_⟩
      · intro z hz
        rcases List.mem_cons.mp ((insertDesc_perm r xs).mem_iff.mp hz) with rfl | hz2
        · exact ⟨Nat.le_of_lt h, fun he => absurd he.symm (Nat.ne_of_lt h)⟩
        · exact hx z hz2
      · intro y hy hc
        exact hr y (List.mem_cons_of_mem x hy) hc
    · rw [insertDesc, if_neg h]
      refine List.pairwise_cons.mpr ⟨?_, hl⟩
      intro z hz
      rcases List.mem_cons.mp hz with rfl | hz2
      · exact ⟨Nat.le_of_not_lt h, hr z (List.mem_cons_self z xs)⟩
      · have hzx : CountTieRel x z := hx z hz2
        refine ⟨Nat.le_trans hzx.1 (Nat.le_of_not_lt h), ?_⟩
        intro he
        exact hr z (List.mem_cons_of_mem x hz2) he

/-- The stable descending sort establishes the count/tie invariant whenever
the input relates every earlier row to every later tied row by title. -/
theorem sortByCountDesc_pairwise :
    ∀ l : List RecurringRow,
      l.Pairwise (fun a b => a.count = b.count → titleLt a.title b.title = true) →
      (sortByCountDesc l).Pairwise CountTieRel := by
  intro l
  induction l with
  | nil => intro _; simp [sortByCountDesc]
  | cons x xs ih =>
    intro hl
    obtain ⟨hx, hxs⟩ := List.pairwise_cons.mp hl
    refine insertDesc_pairwise x (sortByCountDesc xs) (ih hxs) ?_
    intro y hy hc
    exact hx y ((sortByCountDesc_perm xs).mem_iff.mp hy) hc

/-- The full frame invariant: counts descend, and ties are resolved by the
ascending `groupby` key order. -/
theorem find_recurring_pairwise (table : List Entry) (m : Nat) :
    (find_recurring_events table m).Pairwise CountTieRel := by
  have hrows := rows_titles_pairwise (monthRows table m)
  have hkept := hrows.filter (fun r => 3 ≤ r.count)
  have h2 : (((groupTitles (monthRows table m)).filterMap
      (rowFor (monthRows table m))).filter (fun r => 3 ≤ r.count)).Pairwise
        (fun a b => a.count = b.count → titleLt a.title b.title = true) :=
    hkept.imp (fun {a b} h (_ : a.count = b.count) => h)
  exact sortByCountDesc_pairwise _ h2

/-- The titles of the final frame are distinct (it is keyed by title). -/
theorem find_recurring_titles_nodup (table : List Entry) (m : Nat) :
    ((find_recurring_events table m).map RecurringRow.title).Nodup := by
  have hrows := rows_titles_pairwise (monthRows table m)
  have hkept := hrows.filter (fun r => 3 ≤ r.count)
  have hnodup :
      ((((groupTitles (monthRows table m)).filterMap
        (rowFor (monthRows table m))).filter
          (fun r => 3 ≤ r.count)).map RecurringRow.title).Nodup := by
    refine List.Pairwise.map RecurringRow.title (fun a b h => ?_) hkept
    exact ne_of_titleLt a.title b.title h
  have hperm := sortByCountDesc_perm
    (((groupTitles (monthRows table m)).filterMap
      (rowFor (monthRows table m))).filter (fun r => 3 ≤ r.count))
  exact ((hperm.map RecurringRow.title).nodup_iff).mpr hnodup

/-! ### Claims about the Recurring Event Detector and Suggestion Composer -/

/-- C3: every returned group has count ≥ 3 with the count equal to the size
of its title group in the target month, category and body come from the
first entry of that title in the month-filtered table, the sequence is
sorted descending by count, and the result is empty exactly when no title
reaches 3 occurrences in that month. -/
theorem recurring_threshold_sound (table : List Entry) (m : Nat) :
    (∀ r ∈ find_recurring_events table m,
      3 ≤ r.count ∧
      r.count = ((monthRows table m).filter (fun e => e.title == r.title)).length ∧
      ∃ e, (monthRows table m).find? (fun x => x.title == r.title) = some e ∧
        r.category = e.category ∧ r.body = e.body) ∧
    List.Sorted (fun a b : RecurringRow => b.count ≤ a.count)
      (find_recurring_events table m) ∧
    (find_recurring_events table m = [] ↔
      ∀ t, ((monthRows table m).filter (fun e => e.title == t)).length < 3) := by
  refine ⟨?_, ?_, ?_⟩
  · intro r hr
    have hperm := sortByCountDesc_perm
      (((groupTitles (monthRows table m)).filterMap
        (rowFor (monthRows table m))).filter (fun x => 3 ≤ x.count))
    have hr2 : r ∈ ((groupTitles (monthRows table m)).filterMap
        (rowFor (monthRows table m))).filter (fun x => 3 ≤ x.count) :=
      hperm.mem_iff.mp hr
    obtain ⟨hrm, hcount⟩ := List.mem_filter.mp hr2
    obtain ⟨t, ht, hrow⟩ := List.mem_filterMap.mp hrm
    rcases rowFor_spec _ _ _ hrow with ⟨e, es, hf, hreq⟩
    subst hreq
    refine ⟨of_decide_eq_true hcount, ?_, e, ?_, rfl, rfl⟩
    · show es.length + 1 =
        ((monthRows table m).filter (fun x => x.title == t)).length
      rw [hf]
      rfl
    · show (monthRows table m).find? (fun x => x.title == t) = some e
      exact find?_eq_head_of_filter _ _ e es hf
  · exact (find_recurring_pairwise table m).imp (fun {a b} h => h.1)
  · constructor
    · intro hnil t
      by_contra hge
      push_neg at hge
      cases hf : (monthRows table m).filter (fun e => e.title == t) with
      | nil => rw [hf] at hge; simp at hge
      | cons e es =>
        have hemem : e ∈ (monthRows table m).filter (fun x => x.title == t) := by
          rw [hf]
          exact List.mem_cons_self e es
        obtain ⟨hemd, heq⟩ := List.mem_filter.mp hemem
        have htt : e.title = t := by simpa using heq
        have htmem : t ∈ groupTitles (monthRows table m) := by
          apply (mem_sortTitles t _).mpr
          apply List.mem_dedup.mpr
          exact List.mem_map.mpr ⟨e, hemd, htt⟩
        have hrowmem : (⟨t, es.length + 1, e.category, e.body⟩ : RecurringRow) ∈
            (groupTitles (monthRows table m)).filterMap
              (rowFor (monthRows table m)) :=
          List.mem_filterMap.mpr ⟨t, htmem, rowFor_isSome _ _ e es hf⟩
        have h3 : (3 : Nat) ≤ es.length + 1 := by
          rw [hf] at hge
          simpa using hge
        have hkeptmem : (⟨t, es.length + 1, e.category, e.body⟩ : RecurringRow) ∈
            ((groupTitles (monthRows table m)).filterMap
              (rowFor (monthRows table m))).filter (fun x => 3 ≤ x.count) :=
          List.mem_filter.mpr ⟨hrowmem, decide_eq_true h3⟩
        have hmem2 : (⟨t, es.length + 1, e.category, e.body⟩ : RecurringRow) ∈
            find_recurring_events table m :=
          (sortByCountDesc_perm _).mem_iff.mpr hkeptmem
        rw [hnil] at hmem2
        cases hmem2
    · intro hall
      have hkept : ((groupTitles (monthRows table m)).filterMap
          (rowFor (monthRows table m))).filter (fun x => 3 ≤ x.count) = [] := by
        apply List.filter_eq_nil_iff.mpr
        intro r hrmem
        obtain ⟨t, ht, hrow⟩ := List.mem_filterMap.mp hrmem
        rcases rowFor_spec _ _ _ hrow with ⟨e, es, hf, hreq⟩
        subst hreq
        intro hc
        have h3 : (3 : Nat) ≤ es.length + 1 := of_decide_eq_true hc
        have hlt := hall t
        rw [hf] at hlt
        simp at hlt
        omega
      show sortByCountDesc (((groupTitles (monthRows table m)).filterMap
        (rowFor (monthRows table m))).filter (fun x => 3 ≤ x.count)) = []
      rw [hkept]
      rfl

/-- C3 witness: in `recurringTable`, 봄맞이 대청소 recurs three times in
March and is the single returned group. -/
theorem recurring_threshold_sound_witness :
    ((⟨"봄맞이 대청소", 3, "행사", "첫해"⟩ : RecurringRow) ∈
      find_recurring_events recurringTable 3) ∧
    (3 ≤ (⟨"봄맞이 대청소", 3, "행사", "첫해"⟩ : RecurringRow).count ∧
      (⟨"봄맞이 대청소", 3, "행사", "첫해"⟩ : RecurringRow).count =
        ((monthRows recurringTable 3).filter
          (fun e => e.title == (⟨"봄맞이 대청소", 3, "행사", "첫해"⟩ : RecurringRow).title)).length ∧
      ∃ e, (monthRows recurringTable 3).find?
          (fun x => x.title == (⟨"봄맞이 대청소", 3, "행사", "첫해"⟩ : RecurringRow).title) =
            some e ∧
        (⟨"봄맞이 대청소", 3, "행사", "첫해"⟩ : RecurringRow).category = e.category ∧
        (⟨"봄맞이 대청소", 3, "행사", "첫해"⟩ : RecurringRow).body = e.body) :=
  ⟨by decide,
    (recurring_threshold_sound recurringTable 3).1
      ⟨"봄맞이 대청소", 3, "행사", "첫해"⟩ (by decide)⟩

/-- C7 counterexample: in `tieTable` the title "나중" occurs first in the
table, both titles are tied at count 3, yet the result lists "가온" first —
the `groupby` key order (ascending title), not first-occurrence order. -/
theorem recurring_tie_order_counterexample :
    ((monthRows tieTable 3).map Entry.title =
      ["나중", "나중", "나중", "가온", "가온", "가온"]) ∧
    ((find_recurring_events tieTable 3).map RecurringRow.count = [3, 3]) ∧
    ((find_recurring_events tieTable 3).map RecurringRow.title = ["가온", "나중"]) ∧
    ¬((find_recurring_events tieTable 3).map RecurringRow.title = ["나중", "가온"]) := by
  decide

/-- C7 amended: whenever at most 16 groups qualify — the regime in which
numpy's `argsort(kind='quicksort')` is a stable insertion sort — groups tied
on count keep the ascending-title order of the sorted groupby keys, not the
first-occurrence order of the input table, while counts are non-increasing;
with more qualifying groups the partitioning sort leaves the tie order
unspecified and only the descending count order remains guaranteed. -/
theorem recurring_tie_order_amended (table : List Entry) (m : Nat)
    (hsmall : (find_recurring_events table m).length ≤ 16) :
    (find_recurring_events table m).Pairwise CountTieRel :=
  find_recurring_pairwise table m

/-- C7 amended witness: the tied table qualifies (2 groups) and its result
satisfies the invariant. -/
theorem recurring_tie_order_amended_witness :
    (find_recurring_events tieTable 3).length ≤ 16 ∧
    (find_recurring_events tieTable 3).Pairwise CountTieRel :=
  ⟨by decide, recurring_tie_order_amended tieTable 3 (by decide)⟩

/-- C9: the composer delegates to the retry loop a prompt payload holding at
most 50 month entries — a prefix of the month-filtered table in original
order, already restricted to the four projected columns — and at most 20
recurring-event groups, a prefix of the detector output, keyed by distinct
titles. -/
theorem composer_bounded_payload (gen : PromptPayload → Nat → CallResult)
    (st : GeminiState) (table : List Entry) (m : Nat) :
    suggest_next_month_ads gen st table m =
      call_gemini_with_retry (gen (composePayload table m)) st ∧
    (composePayload table m).pastEvents.length ≤ 50 ∧
    (composePayload table m).pastEvents <+: monthRows table m ∧
    (composePayload table m).recurringEvents.length ≤ 20 ∧
    (composePayload table m).recurringEvents <+: find_recurring_events table m ∧
    ((composePayload table m).recurringEvents.map RecurringRow.title).Nodup := by
  refine ⟨rfl, ?_, ?_, ?_, ?_, ?_⟩
  · exact List.length_take_le 50 _
  · exact List.take_prefix 50 _
  · exact List.length_take_le 20 _
  · exact List.take_prefix 20 _
  · have hnd := find_recurring_titles_nodup table m
    have hsub : List.Sublist
        (((find_recurring_events table m).take 20).map RecurringRow.title)
        ((find_recurring_events table m).map RecurringRow.title) :=
      (List.take_sublist 20 _).map RecurringRow.title
    exact List.Nodup.sublist hsub hnd
